import Mathlib

/-!
Verification of the rem-extract refactoring pipeline core
(`src/rem-extract/src/utils.rs`, `extraction_utils.rs`, `error.rs`).

The Rust code manipulates UTF-8 file text with `str::contains`, `str::find`,
`str::replace`, `str::match_indices` and `String::replace_range`.  We embed
file text as `List Char` and reimplement those primitives with the same
semantics (left-to-right, non-overlapping matches).  File-system effects
(read / write / copy) are embedded as explicit state passing; a `writeOk`
flag models the success or failure of `fs::write`.
-/

set_option autoImplicit false

namespace RemExtract

/-- Boolean substring-prefix test: does `p` occur at the start of `s`?
Embeds Rust `str::starts_with` as used implicitly by the search loops. -/
def isPrefixL : List Char → List Char → Bool
  | [], _ => true
  | _ :: _, [] => false
  | p :: ps, c :: cs => p == c && isPrefixL ps cs

/-- Embeds Rust `str::contains(pat)`: some position of `s` starts with `pat`. -/
def containsSub (pat : List Char) : List Char → Bool
  | [] => pat.isEmpty
  | c :: rest => isPrefixL pat (c :: rest) || containsSub pat rest

/-- Embeds Rust `str::find(pat)`: index of the first occurrence of `pat`. -/
def findSub (pat : List Char) : List Char → Option Nat
  | [] => if pat.isEmpty then some 0 else none
  | c :: rest =>
    if isPrefixL pat (c :: rest) then some 0
    else (findSub pat rest).map (fun n => n + 1)

/-- Fuelled worker for `replaceAll`; the fuel is an upper bound on the number
of characters still to be scanned, so recursion is structural. -/
def replaceAllF (pat rep : List Char) : Nat → List Char → List Char
  | 0, s => s
  | _ + 1, [] => []
  | fuel + 1, c :: rest =>
    if isPrefixL pat (c :: rest) then
      rep ++ replaceAllF pat rep fuel ((c :: rest).drop pat.length)
    else
      c :: replaceAllF pat rep fuel rest

/-- Embeds Rust `str::replace(pat, rep)`: replace every non-overlapping
occurrence of `pat`, scanning left to right.  `pat` is always a non-empty
literal at the call sites in the source; for an empty `pat` we return the
text unchanged. -/
def replaceAll (pat rep s : List Char) : List Char :=
  match pat with
  | [] => s
  | _ :: _ => replaceAllF pat rep s.length s

/-- Fuelled worker for `matchIndices`. -/
def matchIndicesF (pat : List Char) : Nat → Nat → List Char → List Nat
  | 0, _, _ => []
  | _ + 1, _, [] => []
  | fuel + 1, i, c :: rest =>
    if isPrefixL pat (c :: rest) then
      i :: matchIndicesF pat fuel (i + pat.length) ((c :: rest).drop pat.length)
    else
      matchIndicesF pat fuel (i + 1) rest

/-- Embeds Rust `str::match_indices(pat)` (start indices only): indices of the
non-overlapping occurrences of `pat`, scanning left to right.  An empty
pattern matches at every boundary, as in Rust. -/
def matchIndices (pat s : List Char) : List Nat :=
  match pat with
  | [] => List.range (s.length + 1)
  | _ :: _ => matchIndicesF pat s.length 0 s

/-- An engine-produced assist descriptor (`ra_ap_ide_assists::Assist`).
Only the `label` field is inspected by the code under verification; `id`
keeps distinct descriptors distinguishable. -/
structure Assist where
  id : String
  label : String
deriving DecidableEq, Repr

/-- Errors: `ExtractionError` from `src/rem-extract/src/error.rs` (first seven
variants), together with the variants constructed by the code in
`utils.rs` / `extraction_utils.rs` (`InvalidManifest`, `NoExtractFunction`,
`ControlFlowFixupFailed`, `BlankTypeFixupFailed`).  The `io::Error` and
`syn::Error` payloads are opaque to this code and embedded as strings. -/
inductive ExtractionError where
  | Io : String → ExtractionError
  | Parse : String → ExtractionError
  | FormatError : ExtractionError
  | InvalidLineRange : ExtractionError
  | InvalidColumnRange : ExtractionError
  | InvalidCursor : ExtractionError
  | ZeroLineIndex : ExtractionError
  | InvalidManifest : ExtractionError
  | NoExtractFunction : List Assist → ExtractionError
  | ControlFlowFixupFailed : String → ExtractionError
  | BlankTypeFixupFailed : String → ExtractionError
deriving DecidableEq, Repr

/-- Embeds `filter_extract_function_assist` from `extraction_utils.rs` (lines
318-329): find the first assist labelled "Extract into function"; if none
exists, return `NoExtractFunction` carrying the whole list. -/
def filter_extract_function_assist (assists : List Assist) :
    Except ExtractionError Assist :=
  match assists.find? (fun assist => assist.label == ("Extract into function")) with
  | some extract_assist => Except.ok extract_assist
  | none => Except.error (ExtractionError.NoExtractFunction assists)

/-- Cursors: `Cursor` from `extraction.rs` as used by `utils.rs`: 1-indexed line and
column. -/
structure Cursor where
  line : Nat
  column : Nat
deriving DecidableEq, Repr

/-- Embeds `cursor_to_offset` from `utils.rs` (lines 63-65).  The source is a
`TODO` stub: it ignores the cursor entirely and returns the offset `0`. -/
def cursor_to_offset (_cursor : Cursor) : Nat :=
  0

/-!
### Manifest discovery (`get_manifest_dir`)

An absolute filesystem path is embedded as its list of components from the
root; `[]` is the root directory itself.  `Path::parent` returns `none` for
the root and drops the last component otherwise.  The filesystem is embedded
as the predicate `hasCargo`, true on the directories containing a
`Cargo.toml`.
-/

/-- Embeds `std::path::Path::parent`. -/
def parentDir : List String → Option (List String)
  | [] => none
  | x :: xs => some ((x :: xs).dropLast)

/-- The directory `get_manifest_dir` starts from: the parent for a file path
(`path.parent().unwrap_or(path)`), the path itself for a directory. -/
def startDir (path : List String) (isFile : Bool) : List String :=
  if isFile then
    match parentDir path with
    | some p => p
    | none => path
  else path

/-- Fuelled worker for the `while let Some(parent) = current_dir.parent()`
loop of `get_manifest_dir`: while the current directory has a parent, check
it for a `Cargo.toml` and move up.  The root itself has no parent, so the
loop exits without ever checking it. -/
def manifestLoopF (hasCargo : List String → Bool) :
    Nat → List String → Option (List String)
  | 0, _ => none
  | _ + 1, [] => none
  | fuel + 1, x :: xs =>
    if hasCargo (x :: xs) then some (x :: xs)
    else manifestLoopF hasCargo fuel ((x :: xs).dropLast)

/-- The upward-search loop of `get_manifest_dir`. -/
def manifestLoop (hasCargo : List String → Bool) (cur : List String) :
    Option (List String) :=
  manifestLoopF hasCargo cur.length cur

/-- Embeds `get_manifest_dir` from `utils.rs` (lines 81-104) and
`extraction_utils.rs` (lines 78-101): check the starting directory, then
walk up while a parent exists; return `InvalidManifest` when the walk ends
without finding a `Cargo.toml`. -/
def get_manifest_dir (hasCargo : List String → Bool)
    (path : List String) (isFile : Bool) :
    Except ExtractionError (List String) :=
  let current := startDir path isFile
  if hasCargo current then Except.ok current
  else
    match manifestLoop hasCargo current with
    | some d => Except.ok d
    | none => Except.error ExtractionError.InvalidManifest

/-- Fuelled list of the directories the upward-search loop examines:
the chain from the starting directory up to, but excluding, the root. -/
def checkedDirsF : Nat → List String → List (List String)
  | 0, _ => []
  | _ + 1, [] => []
  | fuel + 1, x :: xs => (x :: xs) :: checkedDirsF fuel ((x :: xs).dropLast)

/-- The directories examined by `get_manifest_dir`'s upward search, nearest
first; the root is never among them. -/
def checkedDirs (cur : List String) : List (List String) :=
  checkedDirsF cur.length cur

/-!
### Edit applicator and symbol renamer (`apply_extract_function`)

The on-disk state is embedded as a total map from path names to file text.
`fs::copy`, `fs::read_to_string` and `fs::write` become reads and updates of
that map.  A `TextEdit` is the engine's sorted, disjoint list of indels
`(start, end, replacement)` over the pre-edit text; a `SnippetEdit` is a
sorted list of insertions `(position, snippet text)`.
-/

/-- The file system: content of each path. -/
def FileSys : Type := String → List Char

/-- Embeds `fs::write`: update one path's content. -/
def fsWrite (fs : FileSys) (p : String) (content : List Char) : FileSys :=
  fun q => if q = p then content else fs q

/-- One indel of an `ra_ap_ide::TextEdit`: replace bytes
`[start, stop)` with `replacement`. -/
structure Indel where
  start : Nat
  stop : Nat
  replacement : List Char
deriving DecidableEq, Repr

/-- Embeds `TextEdit::apply`: walk the sorted, disjoint indels, keeping the text
between them (`pos` is the end of the previously applied indel). -/
def applyIndelsFrom (text : List Char) : Nat → List Indel → List Char
  | pos, [] => text.drop pos
  | pos, e :: rest =>
    (text.drop pos).take (e.start - pos) ++ e.replacement ++
      applyIndelsFrom text e.stop rest

/-- Apply a `TextEdit` (list of indels computed against the pre-edit text). -/
def applyTextEdit (edits : List Indel) (text : List Char) : List Char :=
  applyIndelsFrom text 0 edits

/-- Embeds `SnippetEdit::apply`: insert each snippet marker at its position in the
already text-edited content. -/
def applySnippetEdit (snips : List (Nat × List Char)) (text : List Char) :
    List Char :=
  applyIndelsFrom text 0 (snips.map (fun s => ⟨s.1, s.1, s.2⟩))

/-- Embeds `copy_file_vfs` from `extraction_utils.rs` (lines 429-437): byte-for-byte
copy of `source` to `destination` via `fs::copy`. -/
def copy_file_vfs (source destination : String) (fs : FileSys) : FileSys :=
  fsWrite fs destination (fs source)

/-- Embeds `apply_edits` from `extraction_utils.rs` (lines 390-405): read the file,
apply the text edit, then the snippet edit if present, and write back. -/
def apply_edits (path : String) (text_edit : List Indel)
    (maybe_snippet_edit : Option (List (Nat × List Char))) (fs : FileSys) :
    FileSys :=
  let text := fs path
  let text := applyTextEdit text_edit text
  let text :=
    match maybe_snippet_edit with
    | some snippet_edit => applySnippetEdit snippet_edit text
    | none => text
  fsWrite fs path text

/-- The text transformation of `rename_function`: a global
`str::replace(old_name, new_name)`. -/
def rename_function_text (old_name new_name text : List Char) : List Char :=
  replaceAll old_name new_name text

/-- Embeds `rename_function` from `extraction_utils.rs` (lines 408-419): read the
file, globally replace `old_name` by `new_name`, write back. -/
def rename_function (path : String) (old_name new_name : String)
    (fs : FileSys) : FileSys :=
  fsWrite fs path (rename_function_text old_name.data new_name.data (fs path))

/-- Embeds `apply_extract_function` from `extraction_utils.rs` (lines 335-386):
copy the source file to the output path, apply the assist's text edit and
optional snippet edit to the output file, then rename the synthesized
`fun_name` function to `callee_name` there.  Returns the new file system
and the output path. -/
def apply_extract_function (text_edit : List Indel)
    (maybe_snippet_edit : Option (List (Nat × List Char)))
    (input_path output_path : String) (callee_name : String) (fs : FileSys) :
    FileSys × String :=
  let fs := copy_file_vfs input_path output_path fs
  let fs := apply_edits output_path text_edit maybe_snippet_edit fs
  let fs := rename_function output_path ("fun_name") callee_name fs
  (fs, output_path)

/-!
### Repair pipeline fixups

Each fixup reads the output file, transforms the text, and (when the text
changed) writes it back, returning the output path on success.  We embed
each fixup twice: a pure text core (`…_text`), and a full run
(`FixupRun`) that also records the attempted writes and models `fs::write`
failure through the `writeOk` flag (a failed write leaves the file as it
was). -/

instance exceptDecEq {ε α : Type} [DecidableEq ε] [DecidableEq α] :
    DecidableEq (Except ε α) := fun x y =>
  match x, y with
  | Except.ok a, Except.ok b =>
    if h : a = b then isTrue (by rw [h])
    else isFalse (by intro hh; cases hh; exact h rfl)
  | Except.error a, Except.error b =>
    if h : a = b then isTrue (by rw [h])
    else isFalse (by intro hh; cases hh; exact h rfl)
  | Except.ok _, Except.error _ => isFalse (by intro hh; cases hh)
  | Except.error _, Except.ok _ => isFalse (by intro hh; cases hh)

/-- Outcome of running one fixup on a file: the returned value, the file
content afterwards, and the contents passed to `fs::write`, in order. -/
structure FixupRun where
  result : Except ExtractionError String
  file : List Char
  writes : List (List Char)
deriving DecidableEq, Repr

/-- The qualifier `fixup_controlflow` searches for. -/
def controlflowRef : List Char := ("ControlFlow::").data

/-- The text prepended by `fixup_controlflow`: the import declaration
followed by a blank line, as the source builds with its format macro. -/
def controlflowImport : List Char := ("use std::ops::ControlFlow;\n\n").data

/-- Text core of `fixup_controlflow` (lines 444-460): if the text contains
`ControlFlow::`, prepend the import, else leave it unchanged.  No check for
an already-present import is performed. -/
def fixup_controlflow_text (text : List Char) : List Char :=
  if containsSub controlflowRef text then controlflowImport ++ text else text

/-- Embeds `fixup_controlflow` with its file-system behaviour. -/
def fixup_controlflow (output_path : String) (writeOk : Bool)
    (text : List Char) : FixupRun :=
  if containsSub controlflowRef text then
    let newText := controlflowImport ++ text
    if writeOk then ⟨Except.ok output_path, newText, [newText]⟩
    else ⟨Except.error (ExtractionError.ControlFlowFixupFailed output_path),
          text, [newText]⟩
  else ⟨Except.ok output_path, text, []⟩

/-- The marker `fixup_blanktype` searches for (with its surrounding spaces). -/
def blankMarker : List Char := (" -> _ ").data

/-- Text core of `fixup_blanktype` (lines 467-501): collect the
non-overlapping occurrences of `callee_name`; fail with
`BlankTypeFixupFailed` when there are fewer than two; otherwise search for
` -> _ ` from the second occurrence onwards and, when found, replace the
five characters ` -> _` (the marker without its trailing space) by a single
space via `String::replace_range(start..start + 5, " ")`. -/
def fixup_blanktype_text (output_path : String) (callee_name text : List Char) :
    Except ExtractionError (List Char) :=
  match matchIndices callee_name text with
  | _ :: second_occurrence_pos :: _ =>
    match findSub blankMarker (text.drop second_occurrence_pos) with
    | some index =>
      let replacement_start := second_occurrence_pos + index
      Except.ok (text.take replacement_start ++ (" ").data ++
        text.drop (replacement_start + 5))
    | none => Except.ok text
  | _ => Except.error (ExtractionError.BlankTypeFixupFailed output_path)

/-- Embeds `fixup_blanktype` with its file-system behaviour: the
fewer-than-two-occurrences error path returns before any write; the
no-marker path succeeds without writing. -/
def fixup_blanktype (output_path : String) (callee_name : List Char)
    (writeOk : Bool) (text : List Char) : FixupRun :=
  match matchIndices callee_name text with
  | _ :: second_occurrence_pos :: _ =>
    match findSub blankMarker (text.drop second_occurrence_pos) with
    | some index =>
      let replacement_start := second_occurrence_pos + index
      let newText := text.take replacement_start ++ (" ").data ++
        text.drop (replacement_start + 5)
      if writeOk then ⟨Except.ok output_path, newText, [newText]⟩
      else ⟨Except.error (ExtractionError.BlankTypeFixupFailed output_path),
            text, [newText]⟩
    | none => ⟨Except.ok output_path, text, []⟩
  | _ => ⟨Except.error (ExtractionError.BlankTypeFixupFailed output_path),
          text, []⟩

/-- Text core of `fixup_double_semicolon` (lines 503-519): replace every
`;;` by `;`. -/
def fixup_double_semicolon_text (text : List Char) : List Char :=
  if containsSub ((";;").data) text then
    replaceAll ((";;").data) ((";").data) text
  else text

/-- Embeds `fixup_double_semicolon` with its file-system behaviour.  Note the
error constructed on a failed write is `ControlFlowFixupFailed` — the same
variant `fixup_controlflow` uses — not a terminator-specific error. -/
def fixup_double_semicolon (output_path : String) (writeOk : Bool)
    (text : List Char) : FixupRun :=
  if containsSub ((";;").data) text then
    let newText := replaceAll ((";;").data) ((";").data) text
    if writeOk then ⟨Except.ok output_path, newText, [newText]⟩
    else ⟨Except.error (ExtractionError.ControlFlowFixupFailed output_path),
          text, [newText]⟩
  else ⟨Except.ok output_path, text, []⟩

/-- Text core of `fixup_doublespace` (lines 521-537): replace every
`)␣␣` (closing parenthesis and two spaces) by `)␣`. -/
def fixup_doublespace_text (text : List Char) : List Char :=
  if containsSub ((")  ").data) text then
    replaceAll ((")  ").data) ((") ").data) text
  else text

/-- Embeds `fixup_doublespace` with its file-system behaviour; its failed-write
error is also `ControlFlowFixupFailed`. -/
def fixup_doublespace (output_path : String) (writeOk : Bool)
    (text : List Char) : FixupRun :=
  if containsSub ((")  ").data) text then
    let newText := replaceAll ((")  ").data) ((") ").data) text
    if writeOk then ⟨Except.ok output_path, newText, [newText]⟩
    else ⟨Except.error (ExtractionError.ControlFlowFixupFailed output_path),
          text, [newText]⟩
  else ⟨Except.ok output_path, text, []⟩

/-- The text an assist's edit and snippet edit turn the source file into,
before renaming: the `TextEdit` applied to the copied source text, then the
optional `SnippetEdit` on top. -/
def output_rewrite (text_edit : List Indel)
    (maybe_snippet_edit : Option (List (Nat × List Char)))
    (text : List Char) : List Char :=
  match maybe_snippet_edit with
  | some snippet_edit => applySnippetEdit snippet_edit (applyTextEdit text_edit text)
  | none => applyTextEdit text_edit text

/-- Example file system used to instantiate theorems with hypotheses. -/
def exampleFs : FileSys :=
  fun q => if q = ("in.rs") then ("fn main() \x7b fun_name() \x7d").data else []

/-!
### Helper lemmas about the string primitives
-/

theorem isPrefixL_nil (s : List Char) : isPrefixL [] s = true := by
  cases s <;> rfl

theorem isPrefixL_cons_iff {p c : Char} {ps s : List Char} :
    isPrefixL (p :: ps) (c :: s) = true ↔ p = c ∧ isPrefixL ps s = true := by
  simp [isPrefixL, Bool.and_eq_true, beq_iff_eq]

theorem isPrefixL_append_self (p s : List Char) : isPrefixL p (p ++ s) = true := by
  induction p with
  | nil => exact isPrefixL_nil s
  | cons c cs ih => simp [isPrefixL, ih]

theorem eq_append_of_isPrefixL :
    ∀ (p s : List Char), isPrefixL p s = true → s = p ++ s.drop p.length
  | [], s, _ => by simp
  | _ :: _, [], h => by simp [isPrefixL] at h
  | c :: cs, d :: ds, h => by
    rcases isPrefixL_cons_iff.mp h with ⟨hc, hrest⟩
    have ih := eq_append_of_isPrefixL cs ds hrest
    rw [hc]
    exact congrArg (List.cons d) ih

theorem containsSub_cons (pat : List Char) (c : Char) (s : List Char) :
    containsSub pat (c :: s) = (isPrefixL pat (c :: s) || containsSub pat s) := rfl

/-- An occurrence in `u ++ v` either starts inside `u` or lies inside `v`. -/
theorem containsSub_append_split :
    ∀ (u v pat : List Char), containsSub pat (u ++ v) = true →
      (∃ i, i < u.length ∧ isPrefixL pat ((u ++ v).drop i) = true) ∨
        containsSub pat v = true
  | [], _, _, h => Or.inr h
  | x :: u, v, pat, h => by
    rw [List.cons_append, containsSub_cons, Bool.or_eq_true] at h
    rcases h with h1 | h2
    · exact Or.inl ⟨0, by simp, by simpa using h1⟩
    · rcases containsSub_append_split u v pat h2 with ⟨i, hi, hp⟩ | hv
      · exact Or.inl ⟨i + 1, by simpa using hi, by simpa using hp⟩
      · exact Or.inr hv

/-- If a suffix of the pattern is a prefix of `replaceAllF`'s output and the
replacement shares no character with the pattern, that suffix was already a
prefix of the input: replacements can never fake the head of a match. -/
theorem isPrefixL_drop_replaceAllF {p : Char} {pr rep : List Char}
    (hrep : rep ≠ []) (hdis : ∀ c ∈ rep, c ∉ (p :: pr)) :
    ∀ (fuel : Nat) (s : List Char) (j : Nat), j < (p :: pr).length →
      isPrefixL ((p :: pr).drop j) (replaceAllF (p :: pr) rep fuel s) = true →
      isPrefixL ((p :: pr).drop j) s = true := by
  intro fuel
  induction fuel with
  | zero => intro s j _ h; simpa [replaceAllF] using h
  | succ fuel ih =>
    intro s j hj h
    cases s with
    | nil =>
      rw [show replaceAllF (p :: pr) rep (fuel + 1) [] = [] from rfl,
        List.drop_eq_getElem_cons hj] at h
      simp [isPrefixL] at h
    | cons c rest =>
      by_cases hpre : isPrefixL (p :: pr) (c :: rest) = true
      · rw [show replaceAllF (p :: pr) rep (fuel + 1) (c :: rest) =
            rep ++ replaceAllF (p :: pr) rep fuel ((c :: rest).drop (p :: pr).length)
            from by simp [replaceAllF, hpre]] at h
        cases rep with
        | nil => exact absurd rfl hrep
        | cons r rs =>
          rw [List.drop_eq_getElem_cons hj, List.cons_append] at h
          rcases isPrefixL_cons_iff.mp h with ⟨he, _⟩
          exact absurd (he ▸ List.getElem_mem hj)
            (hdis r (List.mem_cons_self r rs))
      · rw [show replaceAllF (p :: pr) rep (fuel + 1) (c :: rest) =
            c :: replaceAllF (p :: pr) rep fuel rest
            from by simp [replaceAllF, hpre]] at h
        rw [List.drop_eq_getElem_cons hj] at h
        rcases isPrefixL_cons_iff.mp h with ⟨he, hrest⟩
        rw [List.drop_eq_getElem_cons hj, isPrefixL_cons_iff]
        refine ⟨he, ?_⟩
        by_cases hj1 : j + 1 < (p :: pr).length
        · exact ih rest (j + 1) hj1 hrest
        · have : (p :: pr).drop (j + 1) = [] := by
            have : (p :: pr).length ≤ j + 1 := Nat.le_of_not_lt hj1
            exact List.drop_eq_nil_iff.mpr this
          rw [this]
          exact isPrefixL_nil rest

/-- When the replacement is non-empty and shares no character with the
pattern, a full replacement pass leaves no occurrence of the pattern. -/
theorem containsSub_replaceAllF_eq_false {p : Char} {pr rep : List Char}
    (hrep : rep ≠ []) (hdis : ∀ c ∈ rep, c ∉ (p :: pr)) :
    ∀ (fuel : Nat) (s : List Char), s.length ≤ fuel →
      containsSub (p :: pr) (replaceAllF (p :: pr) rep fuel s) = false := by
  intro fuel
  induction fuel with
  | zero =>
    intro s hs
    have : s = [] := List.eq_nil_of_length_eq_zero (Nat.le_zero.mp hs)
    subst this
    simp [replaceAllF, containsSub]
  | succ fuel ih =>
    intro s hs
    cases s with
    | nil => simp [replaceAllF, containsSub]
    | cons c rest =>
      by_cases hpre : isPrefixL (p :: pr) (c :: rest) = true
      · rw [show replaceAllF (p :: pr) rep (fuel + 1) (c :: rest) =
            rep ++ replaceAllF (p :: pr) rep fuel ((c :: rest).drop (p :: pr).length)
            from by simp [replaceAllF, hpre]]
        cases hval : containsSub (p :: pr)
            (rep ++ replaceAllF (p :: pr) rep fuel ((c :: rest).drop (p :: pr).length))
        · rfl
        · exfalso
          rcases containsSub_append_split rep _ (p :: pr) hval with ⟨i, hi, hp⟩ | hv
          · rw [List.drop_append_of_le_length (Nat.le_of_lt hi),
              List.drop_eq_getElem_cons hi] at hp
            rcases isPrefixL_cons_iff.mp hp with ⟨he, _⟩
            exact (hdis _ (List.getElem_mem hi)) (he ▸ List.mem_cons_self p pr)
          · have hlen : ((c :: rest).drop (p :: pr).length).length ≤ fuel := by
              rw [List.length_drop]
              simp only [List.length_cons] at hs ⊢
              omega
            rw [ih _ hlen] at hv
            exact Bool.false_ne_true hv
      · rw [show replaceAllF (p :: pr) rep (fuel + 1) (c :: rest) =
            c :: replaceAllF (p :: pr) rep fuel rest
            from by simp [replaceAllF, hpre]]
        rw [containsSub_cons]
        have h2 : containsSub (p :: pr) (replaceAllF (p :: pr) rep fuel rest) = false :=
          ih rest (by simpa using Nat.le_of_succ_le_succ hs)
        have h1 : isPrefixL (p :: pr) (c :: replaceAllF (p :: pr) rep fuel rest) = false := by
          cases hval : isPrefixL (p :: pr) (c :: replaceAllF (p :: pr) rep fuel rest)
          · rfl
          · exfalso
            have hfull : isPrefixL (p :: pr)
                (replaceAllF (p :: pr) rep (fuel + 1) (c :: rest)) = true := by
              rw [show replaceAllF (p :: pr) rep (fuel + 1) (c :: rest) =
                c :: replaceAllF (p :: pr) rep fuel rest
                from by simp [replaceAllF, hpre]]
              exact hval
            have := isPrefixL_drop_replaceAllF hrep hdis (fuel + 1) (c :: rest) 0
              (by simp) (by simpa using hfull)
            simp only [List.drop_zero] at this
            exact hpre this
        rw [h1, h2]
        rfl

/-- Instantiation of the previous lemma to `replaceAll`. -/
theorem containsSub_replaceAll_eq_false {pat rep : List Char}
    (hpat : pat ≠ []) (hrep : rep ≠ []) (hdis : ∀ c ∈ rep, c ∉ pat)
    (s : List Char) : containsSub pat (replaceAll pat rep s) = false := by
  cases pat with
  | nil => exact absurd rfl hpat
  | cons p pr =>
    rw [show replaceAll (p :: pr) rep s = replaceAllF (p :: pr) rep s.length s from rfl]
    exact containsSub_replaceAllF_eq_false hrep hdis s.length s (Nat.le_refl _)

/-- The upward-search loop returns the first checked directory satisfying
`hasCargo`. -/
theorem manifestLoopF_eq_find (hc : List String → Bool) :
    ∀ (fuel : Nat) (l : List String),
      manifestLoopF hc fuel l = (checkedDirsF fuel l).find? hc := by
  intro fuel
  induction fuel with
  | zero => intro l; rfl
  | succ fuel ih =>
    intro l
    cases l with
    | nil => rfl
    | cons x xs =>
      rw [show manifestLoopF hc (fuel + 1) (x :: xs) =
          if hc (x :: xs) then some (x :: xs)
          else manifestLoopF hc fuel ((x :: xs).dropLast) from rfl,
        show checkedDirsF (fuel + 1) (x :: xs) =
          (x :: xs) :: checkedDirsF fuel ((x :: xs).dropLast) from rfl]
      cases hv : hc (x :: xs)
      · rw [List.find?_cons_of_neg _ (by simp [hv]), ih]
        simp
      · rw [List.find?_cons_of_pos _ hv]
        simp

/-- The root directory is never among the directories the loop checks. -/
theorem root_not_mem_checkedDirsF :
    ∀ (fuel : Nat) (l : List String), ¬ ([] ∈ checkedDirsF fuel l) := by
  intro fuel
  induction fuel with
  | zero => intro l; simp [checkedDirsF]
  | succ fuel ih =>
    intro l
    cases l with
    | nil => simp [checkedDirsF]
    | cons x xs =>
      rw [show checkedDirsF (fuel + 1) (x :: xs) =
        (x :: xs) :: checkedDirsF fuel ((x :: xs).dropLast) from rfl]
      intro hmem
      rcases List.mem_cons.mp hmem with he | hm
      · exact List.cons_ne_nil x xs he.symm
      · exact ih _ hm

/-!
### Claim theorems
-/

/-- C1 (counterexample): none of the four fixups is idempotent on all texts.
The import fixup prepends a second import on its second run; the semicolon
fixup collapses `;;;` to `;;` and then to `;`; the spacing fixup collapses
`)␣␣␣` to `)␣␣` and then to `)␣`; the return-type fixup removes a second
marker on its second run. -/
theorem fixup_twice_differs_counterexample :
    fixup_controlflow_text (fixup_controlflow_text (("ControlFlow::x").data)) ≠
      fixup_controlflow_text (("ControlFlow::x").data) ∧
    fixup_double_semicolon_text (fixup_double_semicolon_text ((";;;").data)) ≠
      fixup_double_semicolon_text ((";;;").data) ∧
    fixup_doublespace_text (fixup_doublespace_text ((")   ").data)) ≠
      fixup_doublespace_text ((")   ").data) ∧
    fixup_blanktype_text ("out.rs") (("f").data) (("f f -> _ -> _ \x7b").data) =
      Except.ok (("f f  -> _ \x7b").data) ∧
    fixup_blanktype_text ("out.rs") (("f").data) (("f f  -> _ \x7b").data) =
      Except.ok (("f f   \x7b").data) ∧
    ("f f   \x7b").data ≠ ("f f  -> _ \x7b").data := by
  refine ⟨by decide, by decide, by decide, by decide, by decide, by decide⟩

/-- C1 (amended): each fixup is idempotent exactly on texts whose first-run
output no longer contains the fixup's trigger pattern — no `ControlFlow::`
for the import fixup, no `;;` (resp. `)␣␣`) in the pass's output for the
semicolon (resp. spacing) fixup, and no ` -> _ ` after the second callee
occurrence for the return-type fixup.  In general a second run changes the
text again. -/
theorem fixup_idempotent_on_stable_output :
    (∀ t, containsSub controlflowRef t = false →
      fixup_controlflow_text (fixup_controlflow_text t) = fixup_controlflow_text t) ∧
    (∀ t, containsSub ((";;").data) (fixup_double_semicolon_text t) = false →
      fixup_double_semicolon_text (fixup_double_semicolon_text t) =
        fixup_double_semicolon_text t) ∧
    (∀ t, containsSub ((")  ").data) (fixup_doublespace_text t) = false →
      fixup_doublespace_text (fixup_doublespace_text t) = fixup_doublespace_text t) ∧
    (∀ (p : String) (c u : List Char) (i j : Nat) (r : List Nat),
      matchIndices c u = i :: j :: r →
      findSub blankMarker (u.drop j) = none →
      fixup_blanktype_text p c u = Except.ok u) := by
  refine ⟨?_, ?_, ?_, ?_⟩
  · intro t h
    have h1 : fixup_controlflow_text t = t := by
      simp [fixup_controlflow_text, h]
    rw [h1, h1]
  · intro t h
    conv_lhs => rw [fixup_double_semicolon_text]
    rw [if_neg (by simp [h])]
  · intro t h
    conv_lhs => rw [fixup_doublespace_text]
    rw [if_neg (by simp [h])]
  · intro p c u i j r h1 h2
    simp only [fixup_blanktype_text, h1, h2]

/-- Witness for C1's amended theorem at concrete inputs. -/
theorem fixup_idempotent_on_stable_output_witness :
    fixup_controlflow_text (fixup_controlflow_text (("fn main() \x7b\x7d").data)) =
      fixup_controlflow_text (("fn main() \x7b\x7d").data) ∧
    fixup_double_semicolon_text (fixup_double_semicolon_text (("a;;b").data)) =
      fixup_double_semicolon_text (("a;;b").data) ∧
    fixup_doublespace_text (fixup_doublespace_text ((")  x").data)) =
      fixup_doublespace_text ((")  x").data) ∧
    fixup_blanktype_text ("out.rs") (("f").data) (("f f x").data) =
      Except.ok (("f f x").data) :=
  ⟨fixup_idempotent_on_stable_output.1 _ (by decide),
   fixup_idempotent_on_stable_output.2.1 _ (by decide),
   fixup_idempotent_on_stable_output.2.2.1 _ (by decide),
   fixup_idempotent_on_stable_output.2.2.2 ("out.rs") (("f").data) (("f f x").data)
     0 2 [] (by decide) (by decide)⟩

/-- C3 (counterexample): with callee `ab`, on an input whose second `ab` is
followed by ` -> _ \x7b`, the fixup leaves TWO spaces before the brace, not
one: the five characters ` -> _` are replaced by one space and the marker's
trailing space survives. -/
theorem fixup_blanktype_double_space_counterexample :
    fixup_blanktype_text ("out.rs") (("ab").data) (("ab ab() -> _ \x7b\x7d").data) =
      Except.ok (("ab ab()  \x7b\x7d").data) ∧
    containsSub ((")  \x7b").data) (("ab ab()  \x7b\x7d").data) = true ∧
    ("ab ab()  \x7b\x7d").data ≠ ("ab ab() \x7b\x7d").data := by
  refine ⟨by decide, by decide, by decide⟩

/-- C3 (amended): when the second occurrence of `callee_name` is followed by
the marker ` -> _ ` and the marker is followed by `\x7b`, the fixup replaces
the marker's first five characters ` -> _` by a single space and keeps its
trailing space, producing two spaces before the brace (the doubled space is
collapsed later by `fixup_doublespace`). -/
theorem fixup_blanktype_replaces_five_chars :
    ∀ (p : String) (c t : List Char) (i j rel : Nat) (r : List Nat),
      matchIndices c t = i :: j :: r →
      findSub blankMarker (t.drop j) = some rel →
      isPrefixL ((" -> _ \x7b").data) (t.drop (j + rel)) = true →
      fixup_blanktype_text p c t =
        Except.ok (t.take (j + rel) ++ (("  \x7b").data) ++ t.drop (j + rel + 7)) := by
  intro p c t i j rel r h1 h2 h3
  have hm7 : (" -> _ \x7b").data = [' ', '-', '>', ' ', '_', ' ', '\x7b'] := rfl
  rw [hm7] at h3
  have he : t.drop (j + rel) = [' ', '-', '>', ' ', '_', ' ', '\x7b'] ++ t.drop (j + rel + 7) := by
    have h4 := eq_append_of_isPrefixL _ _ h3
    rwa [show ([' ', '-', '>', ' ', '_', ' ', '\x7b'] : List Char).length = 7 from rfl,
      List.drop_drop] at h4
  simp only [fixup_blanktype_text, h1, h2]
  refine congrArg Except.ok ?_
  rw [List.append_assoc, List.append_assoc]
  refine congrArg (fun l => t.take (j + rel) ++ l) ?_
  rw [show j + rel + 5 = (j + rel) + 5 from rfl, ← List.drop_drop, he]
  rfl

/-- Witness for C3's amended theorem at a concrete input. -/
theorem fixup_blanktype_replaces_five_chars_witness :
    fixup_blanktype_text ("out.rs") (("ab").data) (("ab ab() -> _ \x7b\x7d").data) =
      Except.ok ((("ab ab() -> _ \x7b\x7d").data).take 7 ++ (("  \x7b").data) ++
        (("ab ab() -> _ \x7b\x7d").data).drop 14) :=
  fixup_blanktype_replaces_five_chars ("out.rs") (("ab").data)
    (("ab ab() -> _ \x7b\x7d").data) 0 3 4 [] (by decide) (by decide) (by decide)

/-- C4: with fewer than two (non-overlapping) occurrences of `callee_name`,
`fixup_blanktype` fails with `BlankTypeFixupFailed` before attempting any
write, leaving the file unchanged. -/
theorem fixup_blanktype_too_few_occurrences :
    ∀ (p : String) (c : List Char) (w : Bool) (t : List Char),
      (matchIndices c t).length < 2 →
      fixup_blanktype p c w t =
        ⟨Except.error (ExtractionError.BlankTypeFixupFailed p), t, []⟩ := by
  intro p c w t hlen
  match hocc : matchIndices c t with
  | [] => simp [fixup_blanktype, hocc]
  | [i] => simp [fixup_blanktype, hocc]
  | i :: j :: r => rw [hocc] at hlen; simp at hlen; omega

/-- Witness for C4 at a concrete input: `gg` occurs once in `fn gg()`. -/
theorem fixup_blanktype_too_few_occurrences_witness :
    (matchIndices (("gg").data) (("fn gg()").data)).length < 2 ∧
    fixup_blanktype ("out.rs") (("gg").data) true (("fn gg()").data) =
      ⟨Except.error (ExtractionError.BlankTypeFixupFailed ("out.rs")),
        ("fn gg()").data, []⟩ :=
  ⟨by decide, fixup_blanktype_too_few_occurrences ("out.rs") (("gg").data) true
    (("fn gg()").data) (by decide)⟩

/-- C5 (counterexample): on a text that already contains the import
declaration `use std::ops::ControlFlow;` and still uses `ControlFlow::`,
the fixup is not a no-op — it prepends a second import. -/
theorem fixup_controlflow_duplicate_import_counterexample :
    containsSub (("use std::ops::ControlFlow;").data)
      (("use std::ops::ControlFlow;\nControlFlow::C").data) = true ∧
    fixup_controlflow_text (("use std::ops::ControlFlow;\nControlFlow::C").data) ≠
      ("use std::ops::ControlFlow;\nControlFlow::C").data := by
  refine ⟨by decide, by decide⟩

/-- C5 (amended): the fixup prepends the import declaration followed by a
blank line, with the original content unchanged thereafter, exactly when the
text contains `ControlFlow::` — regardless of whether the import is already
present; a text without `ControlFlow::` is returned byte-identical. -/
theorem fixup_controlflow_prepends_iff_qualifier :
    ∀ t : List Char,
      (containsSub controlflowRef t = false → fixup_controlflow_text t = t) ∧
      (containsSub controlflowRef t = true →
        isPrefixL controlflowImport (fixup_controlflow_text t) = true ∧
        (fixup_controlflow_text t).drop controlflowImport.length = t) := by
  intro t
  refine ⟨?_, ?_⟩
  · intro h
    simp [fixup_controlflow_text, h]
  · intro h
    have h1 : fixup_controlflow_text t = controlflowImport ++ t := by
      simp [fixup_controlflow_text, h]
    rw [h1]
    exact ⟨isPrefixL_append_self _ _, List.drop_left _ _⟩

/-- Witness for C5's amended theorem at concrete inputs. -/
theorem fixup_controlflow_prepends_iff_qualifier_witness :
    fixup_controlflow_text (("fn main() \x7b\x7d").data) = ("fn main() \x7b\x7d").data ∧
    isPrefixL controlflowImport
      (fixup_controlflow_text (("ControlFlow::Continue(())").data)) = true ∧
    (fixup_controlflow_text (("ControlFlow::Continue(())").data)).drop
      controlflowImport.length = ("ControlFlow::Continue(())").data :=
  ⟨(fixup_controlflow_prepends_iff_qualifier _).1 (by decide),
   ((fixup_controlflow_prepends_iff_qualifier _).2 (by decide)).1,
   ((fixup_controlflow_prepends_iff_qualifier _).2 (by decide)).2⟩

/-- C7 (counterexample): with callee name `fun_name2`, every occurrence of
the placeholder is replaced, yet the placeholder still occurs in the result
(inside the replacement itself), so the global search-and-replace does not
guarantee a placeholder-free output. -/
theorem rename_function_placeholder_remains_counterexample :
    rename_function_text (("fun_name").data) (("fun_name2").data)
      (("call fun_name();").data) = ("call fun_name2();").data ∧
    containsSub (("fun_name").data)
      (rename_function_text (("fun_name").data) (("fun_name2").data)
        (("call fun_name();").data)) = true := by
  refine ⟨by decide, by decide⟩

/-- C7 (amended): the renamer is a global left-to-right non-overlapping
search-and-replace; no occurrence of the placeholder `fun_name` remains
provided the callee name is non-empty and cannot reintroduce the
placeholder — in particular whenever it shares no character with
`fun_name`.  A callee name containing the placeholder (for example
`fun_name2`) leaves occurrences behind. -/
theorem rename_function_removes_placeholder_of_disjoint_callee :
    ∀ (callee t : List Char), callee ≠ [] →
      (∀ ch ∈ callee, ch ∉ (("fun_name").data)) →
      containsSub (("fun_name").data)
        (rename_function_text (("fun_name").data) callee t) = false := by
  intro callee t hne hdis
  exact containsSub_replaceAll_eq_false (by decide) hne hdis t

/-- Witness for C7's amended theorem: callee `xyz` shares no character with
`fun_name`. -/
theorem rename_function_removes_placeholder_witness :
    containsSub (("fun_name").data)
      (rename_function_text (("fun_name").data) (("xyz").data)
        (("fn fun_name() \x7b fun_name() \x7d").data)) = false :=
  rename_function_removes_placeholder_of_disjoint_callee (("xyz").data)
    (("fn fun_name() \x7b fun_name() \x7d").data) (by decide) (by decide)

/-- C8: when `fixup_double_semicolon`'s write-back fails on a text holding a
doubled terminator, the error it reports is `ControlFlowFixupFailed` — the
error of the import fixup — because the code has no terminator-specific variant;
the file is left unchanged and the failed write carried the collapsed text. -/
theorem fixup_double_semicolon_error_is_controlflow :
    fixup_double_semicolon ("out.rs") false (("let x = 1;; let y = 2;").data) =
      ⟨Except.error (ExtractionError.ControlFlowFixupFailed ("out.rs")),
        ("let x = 1;; let y = 2;").data, [("let x = 1; let y = 2;").data]⟩ := by
  decide

/-- C9: `cursor_to_offset` is a TODO stub; for the cursor `line = 0,
column = 7` (and indeed for every cursor) it returns the byte offset `0`
and cannot return `ZeroLineIndex` — its return type is a bare offset. -/
theorem cursor_to_offset_zero_line_returns_offset :
    cursor_to_offset ⟨0, 7⟩ = 0 ∧ ∀ c : Cursor, cursor_to_offset c = 0 :=
  ⟨rfl, fun _ => rfl⟩

/-- C2: selection on the assist list returned by the engine: if no element
is labelled "Extract into function" the result is the
`NoExtractFunction` error (the spec's `NoExtractFunctionAvailable`), and
otherwise the first element so labelled is returned. -/
theorem filter_extract_function_assist_spec :
    ∀ assists : List Assist,
      ((∀ a ∈ assists, a.label ≠ ("Extract into function")) →
        filter_extract_function_assist assists =
          Except.error (ExtractionError.NoExtractFunction assists)) ∧
      (∀ (pre : List Assist) (a : Assist) (post : List Assist),
        assists = pre ++ a :: post →
        a.label = ("Extract into function") →
        (∀ b ∈ pre, b.label ≠ ("Extract into function")) →
        filter_extract_function_assist assists = Except.ok a) := by
  intro assists
  constructor
  · intro h
    have hnone : assists.find?
        (fun assist => assist.label == ("Extract into function")) = none :=
      List.find?_eq_none.mpr (fun x hx => by simp [beq_iff_eq]; exact h x hx)
    simp [filter_extract_function_assist, hnone]
  · intro pre a post hsplit ha hpre
    subst hsplit
    have hsome : ∀ pre' : List Assist, (∀ b ∈ pre', b.label ≠ ("Extract into function")) →
        (pre' ++ a :: post).find?
          (fun assist => assist.label == ("Extract into function")) = some a := by
      intro pre'
      induction pre' with
      | nil =>
        intro _
        exact List.find?_cons_of_pos _ (by simp [beq_iff_eq, ha])
      | cons b pre'' ih =>
        intro hall
        rw [List.cons_append,
          List.find?_cons_of_neg _ (by simp [beq_iff_eq]; exact hall b (by simp))]
        exact ih (fun x hx => hall x (List.mem_cons_of_mem b hx))
    simp [filter_extract_function_assist, hsome pre hpre]

/-- Witness for C2 at concrete assist lists: an empty list errors; in a list
where the second and third assists carry the label, the second (first
match) is selected. -/
theorem filter_extract_function_assist_spec_witness :
    filter_extract_function_assist [] =
      Except.error (ExtractionError.NoExtractFunction []) ∧
    filter_extract_function_assist
      [⟨"extract_variable", "Extract into variable"⟩,
       ⟨"extract_function", "Extract into function"⟩,
       ⟨"dup", "Extract into function"⟩] =
      Except.ok ⟨"extract_function", "Extract into function"⟩ :=
  ⟨(filter_extract_function_assist_spec []).1 (by decide),
   (filter_extract_function_assist_spec _).2
     [⟨"extract_variable", "Extract into variable"⟩]
     ⟨"extract_function", "Extract into function"⟩
     [⟨"dup", "Extract into function"⟩] rfl (by decide) (by decide)⟩

/-- C6: `apply_extract_function` copies the source to the distinct output
path and then edits only the output path: every path other than the output
path — in particular the source path — holds exactly its original content
afterwards, and the output path holds the rename of the edits applied to
the source's original content. -/
theorem apply_extract_function_preserves_source :
    ∀ (text_edit : List Indel) (snip : Option (List (Nat × List Char)))
      (input_path output_path callee : String) (fs : FileSys),
      input_path ≠ output_path →
      (apply_extract_function text_edit snip input_path output_path callee fs).1
          input_path = fs input_path ∧
      (∀ q, q ≠ output_path →
        (apply_extract_function text_edit snip input_path output_path callee fs).1 q
          = fs q) ∧
      (apply_extract_function text_edit snip input_path output_path callee fs).1
          output_path =
        rename_function_text (("fun_name").data) callee.data
          (output_rewrite text_edit snip (fs input_path)) := by
  intro te snip inP outP callee fs hne
  refine ⟨?_, ?_, ?_⟩
  · simp [apply_extract_function, copy_file_vfs, apply_edits, rename_function,
      fsWrite, hne]
  · intro q hq
    simp [apply_extract_function, copy_file_vfs, apply_edits, rename_function,
      fsWrite, hq]
  · cases snip <;>
      simp [apply_extract_function, copy_file_vfs, apply_edits, rename_function,
        fsWrite, output_rewrite]

/-- Witness for C6 on a concrete file system and edit. -/
theorem apply_extract_function_preserves_source_witness :
    (apply_extract_function [⟨3, 7, ("x").data⟩] none ("in.rs") ("out.rs")
      ("helper") exampleFs).1 ("in.rs") = exampleFs ("in.rs") ∧
    (apply_extract_function [⟨3, 7, ("x").data⟩] none ("in.rs") ("out.rs")
      ("helper") exampleFs).1 ("out.rs") =
      rename_function_text (("fun_name").data) (("helper").data)
        (output_rewrite [⟨3, 7, ("x").data⟩] none (exampleFs ("in.rs"))) :=
  ⟨(apply_extract_function_preserves_source _ _ _ _ _ _ (by decide)).1,
   (apply_extract_function_preserves_source _ _ _ _ _ _ (by decide)).2.2⟩

/-- C10 (counterexample): when the input path is the root directory itself
and the root holds the only `Cargo.toml`, `get_manifest_dir` returns the
root rather than `InvalidManifest` — the pre-loop check does examine the
starting directory even when it is the root. -/
theorem get_manifest_dir_root_input_counterexample :
    get_manifest_dir (fun l => l.isEmpty) [] false = Except.ok [] ∧
    get_manifest_dir (fun l => l.isEmpty) [] false ≠
      Except.error ExtractionError.InvalidManifest := by
  refine ⟨by decide, by decide⟩

/-- C10 (amended): `get_manifest_dir` returns the first directory, from the
starting directory upwards, that contains a `Cargo.toml`, where the upward
walk checks the chain `checkedDirs` that excludes the filesystem root; if
none of those non-root directories has one it returns `InvalidManifest`
even when the root itself does — except that when the starting directory
IS the root, the initial check does examine it and returns it when it
contains a `Cargo.toml`. -/
theorem get_manifest_dir_search_spec :
    ∀ (hc : List String → Bool) (path : List String) (isFile : Bool),
      (∀ d, (checkedDirs (startDir path isFile)).find? hc = some d →
        get_manifest_dir hc path isFile = Except.ok d) ∧
      ((∀ d ∈ checkedDirs (startDir path isFile), hc d = false) →
        startDir path isFile ≠ [] →
        get_manifest_dir hc path isFile =
          Except.error ExtractionError.InvalidManifest) ∧
      ¬ ([] ∈ checkedDirs (startDir path isFile)) ∧
      (startDir path isFile = [] →
        get_manifest_dir hc path isFile =
          if hc [] then Except.ok []
          else Except.error ExtractionError.InvalidManifest) := by
  intro hc path isFile
  have hgm : get_manifest_dir hc path isFile =
      (if hc (startDir path isFile) then Except.ok (startDir path isFile)
       else
         match manifestLoop hc (startDir path isFile) with
         | some d => Except.ok d
         | none => Except.error ExtractionError.InvalidManifest) := rfl
  refine ⟨?_, ?_, root_not_mem_checkedDirsF _ _, ?_⟩
  · intro d hfind
    rw [hgm]
    cases hc0 : hc (startDir path isFile)
    · rw [if_neg (by simp),
        show manifestLoop hc (startDir path isFile) =
          (checkedDirs (startDir path isFile)).find? hc from
          manifestLoopF_eq_find hc _ _,
        hfind]
    · rw [if_pos rfl]
      cases hcn : startDir path isFile with
      | nil => rw [hcn] at hfind; simp [checkedDirs, checkedDirsF] at hfind
      | cons x xs =>
        rw [hcn] at hfind hc0
        have hhead : (checkedDirs (x :: xs)).find? hc = some (x :: xs) := by
          rw [show checkedDirs (x :: xs) =
            (x :: xs) :: checkedDirsF xs.length ((x :: xs).dropLast) from rfl]
          exact List.find?_cons_of_pos _ hc0
        rw [hhead] at hfind
        injection hfind with hfind
        rw [hfind]
  · intro hall hne
    rw [hgm]
    have hc0 : hc (startDir path isFile) = false := by
      cases hcn : startDir path isFile with
      | nil => exact absurd hcn hne
      | cons x xs =>
        rw [hcn] at hall
        refine hall (x :: xs) ?_
        rw [show checkedDirs (x :: xs) =
          (x :: xs) :: checkedDirsF xs.length ((x :: xs).dropLast) from rfl]
        exact List.mem_cons_self _ _
    rw [if_neg (by simp [hc0]),
      show manifestLoop hc (startDir path isFile) =
        (checkedDirs (startDir path isFile)).find? hc from
        manifestLoopF_eq_find hc _ _,
      List.find?_eq_none.mpr (fun x hx => by simp [hall x hx])]
  · intro h0
    rw [hgm, h0]
    cases hc0 : hc ([] : List String)
    · simp [hc0, manifestLoop, manifestLoopF]
    · simp [hc0]

/-- Witness for C10's amended theorem: a project two levels below the root
is found; with no `Cargo.toml` anywhere outside the root, the search errors
from a non-root start. -/
theorem get_manifest_dir_search_spec_witness :
    get_manifest_dir (fun l => l == (["proj"])) (["proj", "src", "main.rs"]) true =
      Except.ok (["proj"]) ∧
    get_manifest_dir (fun _ => false) (["proj", "src", "main.rs"]) true =
      Except.error ExtractionError.InvalidManifest :=
  ⟨(get_manifest_dir_search_spec (fun l => l == (["proj"]))
      (["proj", "src", "main.rs"]) true).1 (["proj"]) (by decide),
   (get_manifest_dir_search_spec (fun _ => false)
      (["proj", "src", "main.rs"]) true).2.1 (by decide) (by decide)⟩

end RemExtract
